import Mathlib

/-!
Verification development for the QCI registry pruner.

The program under study (`src/main.py`) walks the tag list of a container
image repository.  Tags whose name matches the anchored regular expression
`^(\d\d\d\d)(\d\d)(\d\d)_sha256_([0-9a-f]+)$` are date-stamped *marker* tags;
every other tag is an *alias*.  Marker tags whose embedded date is more than
5 days older than the run's start time are deleted (when `--confirm` is
given); for every alias tag the program resolves its digest and re-tags the
image with a fresh marker stamped with the run date.

The definitions below are a shallow embedding of that program: the regular
expression becomes `digestTagMatch`, `build_sha_tag` becomes `buildShaTag`,
Python `datetime(year, month, day)` validity and `timedelta.days` arithmetic
become `validDate` / `daysDiff`, and the `__main__` tag loop becomes the
state machine `processTag` / `runPass` over an abstract `Registry`.
-/

deriving instance DecidableEq for Except

namespace QciPruner

/-- Decimal digit character for `n`; models the zero-padded decimal fields of
CPython's `strftime` (callers always pass `n < 10`, larger values clamp to
`'9'` but are never reached). -/
def digitChar (n : Nat) : Char :=
  match n with
  | 0 => '0'
  | 1 => '1'
  | 2 => '2'
  | 3 => '3'
  | 4 => '4'
  | 5 => '5'
  | 6 => '6'
  | 7 => '7'
  | 8 => '8'
  | _ => '9'

/-- Numeric value of a decimal digit character, as used by Python `int()` on
each digit of a matched regex group. -/
def charToNat (c : Char) : Nat := c.toNat - 48

/-- Characters accepted by the regex digest group `[0-9a-f]`. -/
def isHexLowerChar (c : Char) : Bool := c.isDigit || ('a' ≤ c && c ≤ 'f')

/-- Python `int()` on a (nonempty) string of decimal digits. -/
def listToNat (cs : List Char) : Nat := cs.foldl (fun a c => 10 * a + charToNat c) 0

/-- A calendar date, the `(year, month, day)` triple carried by the Python
`datetime` values in the program.  The fields are unconstrained here;
`validDate` captures exactly the triples `datetime(year, month, day)`
accepts. -/
structure Date where
  year : Nat
  month : Nat
  day : Nat
deriving DecidableEq, Repr

/-- The fixed `_sha256_` infix appearing both in the f-string of
`build_sha_tag` and in the regular expression `digest_tag_match`. -/
def shaMid : List Char := ['_', 's', 'h', 'a', '2', '5', '6', '_']

/-- Four-digit decimal rendering, the form the `%Y` field of
`strftime("%Y%m%d")` takes for years 1000–9999. -/
def pad4 (n : Nat) : List Char :=
  [digitChar (n / 1000 % 10), digitChar (n / 100 % 10), digitChar (n / 10 % 10),
    digitChar (n % 10)]

/-- Zero-padded two-digit decimal rendering, the `%m` / `%d` fields of
`strftime("%Y%m%d")` (glibc zero-pads both). -/
def pad2 (n : Nat) : List Char := [digitChar (n / 10 % 10), digitChar (n % 10)]

/-- The `%Y` field of `strftime` on the program's platform (Linux/glibc):
the year as a plain decimal number with no zero padding, so years below
1000 render with fewer than four digits (e.g. year 999 gives `999`).
Python `datetime` years never exceed 9999; for the out-of-domain years
above 9999 (not representable in `datetime` at all) this total model
falls back to the last four digits. -/
def yearChars (n : Nat) : List Char :=
  if n < 10 then [digitChar n]
  else if n < 100 then pad2 n
  else if n < 1000 then digitChar (n / 100 % 10) :: pad2 n
  else pad4 n

/-- The function `build_sha_tag(dt, digest)` from src/main.py: the string
`f"{dt.strftime('%Y%m%d')}_sha256_{digest}"`. -/
def buildShaTag (dt : Date) (digest : String) : String :=
  String.mk (yearChars dt.year ++ pad2 dt.month ++ pad2 dt.day ++ shaMid ++ digest.data)

/-- The anchored regular expression `digest_tag_match` from src/main.py:
`^(\d\d\d\d)(\d\d)(\d\d)_sha256_([0-9a-f]+)$`.  Returns the integer values of
the `year`, `month`, `day` groups (via Python `int()`) and the `digest`
group, or `none` when the string does not match. -/
def digestTagMatch (s : String) : Option (Nat × Nat × Nat × String) :=
  if (s.data.take 8).length = 8 ∧ (s.data.take 8).all Char.isDigit = true ∧
      (s.data.drop 8).take 8 = shaMid ∧ (s.data.drop 8).drop 8 ≠ [] ∧
      ((s.data.drop 8).drop 8).all isHexLowerChar = true then
    some (listToNat (s.data.take 4), listToNat ((s.data.drop 4).take 2),
      listToNat ((s.data.drop 6).take 2), String.mk ((s.data.drop 8).drop 8))
  else none

/-- Gregorian leap-year rule, as in Python's `calendar` / `datetime`. -/
def isLeapYear (y : Nat) : Bool := y % 4 == 0 && (y % 100 != 0 || y % 400 == 0)

/-- Number of days in month `m` of year `y` (Gregorian). -/
def daysInMonth (y m : Nat) : Nat :=
  if m = 2 then (if isLeapYear y then 29 else 28)
  else if m = 4 ∨ m = 6 ∨ m = 9 ∨ m = 11 then 30
  else 31

/-- The `(year, month, day)` triples accepted by Python
`datetime(year, month, day)`; every other triple raises `ValueError`. -/
def validDate (y m d : Nat) : Bool :=
  decide (1 ≤ y ∧ y ≤ 9999 ∧ 1 ≤ m ∧ m ≤ 12 ∧ 1 ≤ d ∧ d ≤ daysInMonth y m)

/-- Days in year `y` strictly before month `m`. -/
def daysBeforeMonth (y m : Nat) : Nat :=
  (List.range (m - 1)).foldl (fun acc i => acc + daysInMonth y (i + 1)) 0

/-- Proleptic Gregorian day ordinal of a date (Python `date.toordinal`). -/
def toOrdinal (dt : Date) : Nat :=
  365 * (dt.year - 1) + (dt.year - 1) / 4 + (dt.year - 1) / 400 - (dt.year - 1) / 100
    + daysBeforeMonth dt.year dt.month + dt.day

/-- The quantity `(start_time - digest_tag_date).days` from the tag loop.  `start_time`
carries a time-of-day fraction `0 ≤ f < 1` on top of its date, and
`digest_tag_date` is a midnight, so `timedelta.days` (which floors) is
exactly the difference of the two day ordinals. -/
def daysDiff (a b : Date) : Int := (toOrdinal a : Int) - (toOrdinal b : Int)

/-- Result of classifying one tag name (spec §4.1: `Marker | Alias`). -/
inductive TagClass where
  | markerTag (digest : String) (date : Date)
  | aliasTag (name : String)
deriving DecidableEq, Repr

/-- Tag classification as performed by the `__main__` tag loop: match the
regex, then (for a match) build `datetime(year, month, day)`.
`Except.error ()` models the uncaught `ValueError` raised by `datetime` on a
calendar-invalid date (which aborts the run). -/
def classify (s : String) : Except Unit TagClass :=
  match digestTagMatch s with
  | some (y, m, d, dg) =>
    if validDate y m d then Except.ok (TagClass.markerTag dg (Date.mk y m d))
    else Except.error ()
  | none => Except.ok (TagClass.aliasTag s)

/-- Python `'a:b:c'.split(':')[-1]`: everything after the last colon (the
whole string when no colon occurs), used to peel `sha256:` off a resolved
digest. -/
def splitColonLast (s : String) : String :=
  String.mk ((s.data.reverse.takeWhile (fun c => c ≠ ':')).reverse)

/-- One line printed by the tag loop (the observable report of the pass). -/
inductive Event where
  | removed (tag : String)
  | errDelete (tag : String)
  | wouldRemove (tag : String)
  | refreshed (aliasName : String) (newTag : String)
  | errRefresh (aliasName : String)
  | wouldRefresh (aliasName : String) (newTag : String)
deriving DecidableEq, Repr

/-- The remote registry as seen by one pass.  `resolve t` is the digest
string returned by `head_manifest_and_response(t)[0]` (`none` models that
call raising); `delOk t` tells whether `del_alias(t)` succeeds (returns
normally) or raises; `setOk t` tells whether the
`set_alias(new_tag, get_alias(t))` pair for alias `t` succeeds or raises. -/
structure Registry where
  resolve : String → Option String
  delOk : String → Bool
  setOk : String → Bool

/-- The mutable state of the `__main__` tag loop: the program's own
accumulators (`tag_count`, `prune_target_tags`, `pruned_tags`,
`refresh_count`, `references`) plus a record of every remote registry call
the loop issued (`delCalls` = `del_alias` attempts, `setCalls` =
refresh-mutation attempts, `headCalls` = manifest-head lookups, `created` =
refresh mutations that succeeded) and the printed report `log`.  Python sets
are represented as duplicate-free lists in insertion order. -/
structure PassState where
  tagCount : Nat
  pruneTargets : List String
  prunedTags : List String
  refreshCount : Nat
  references : List (String × String)
  delCalls : List String
  setCalls : List (String × String)
  headCalls : List String
  created : List (String × String)
  log : List Event
deriving DecidableEq, Repr

/-- The state at the top of the tag loop. -/
def initState : PassState :=
  { tagCount := 0, pruneTargets := [], prunedTags := [], refreshCount := 0,
    references := [], delCalls := [], setCalls := [], headCalls := [],
    created := [], log := [] }

/-- One iteration of the `for image_tag in dxf_obj.list_aliases(...)` loop of
src/main.py.  The returned `Bool` is `true` when the iteration finished
normally and `false` when it raised an uncaught exception (the `ValueError`
from `datetime(year, month, day)` on a calendar-invalid matched date, or the
exception from the unguarded `head_manifest_and_response` call), which
aborts the whole pass. -/
def processTag (reg : Registry) (confirm : Bool) (now : Date) (st : PassState)
    (tag : String) : PassState × Bool :=
  match digestTagMatch tag with
  | some (y, m, d, dg) =>
    if validDate y m d then
      if daysDiff now (Date.mk y m d) > 5 ∧ tag ∉ st.pruneTargets then
        if confirm then
          if reg.delOk tag then
            ({ st with
                tagCount := st.tagCount + 1,
                references := st.references ++ [(dg, tag)],
                pruneTargets := st.pruneTargets ++ [tag],
                delCalls := st.delCalls ++ [tag],
                prunedTags := st.prunedTags ++ [tag],
                log := st.log ++ [Event.removed tag] }, true)
          else
            ({ st with
                tagCount := st.tagCount + 1,
                references := st.references ++ [(dg, tag)],
                pruneTargets := st.pruneTargets ++ [tag],
                delCalls := st.delCalls ++ [tag],
                log := st.log ++ [Event.errDelete tag] }, true)
        else
          ({ st with
              tagCount := st.tagCount + 1,
              references := st.references ++ [(dg, tag)],
              pruneTargets := st.pruneTargets ++ [tag],
              log := st.log ++ [Event.wouldRemove tag] }, true)
      else
        ({ st with
            tagCount := st.tagCount + 1,
            references := st.references ++ [(dg, tag)] }, true)
    else
      ({ st with tagCount := st.tagCount + 1 }, false)
  | none =>
    match reg.resolve tag with
    | none =>
      ({ st with
          tagCount := st.tagCount + 1,
          headCalls := st.headCalls ++ [tag] }, false)
    | some raw =>
      if confirm then
        if reg.setOk tag then
          ({ st with
              tagCount := st.tagCount + 1,
              headCalls := st.headCalls ++ [tag],
              references := st.references ++ [(splitColonLast raw, tag)],
              refreshCount := st.refreshCount + 1,
              setCalls := st.setCalls ++ [(buildShaTag now (splitColonLast raw), tag)],
              created := st.created ++ [(buildShaTag now (splitColonLast raw), tag)],
              log := st.log ++ [Event.refreshed tag (buildShaTag now (splitColonLast raw))] },
            true)
        else
          ({ st with
              tagCount := st.tagCount + 1,
              headCalls := st.headCalls ++ [tag],
              references := st.references ++ [(splitColonLast raw, tag)],
              refreshCount := st.refreshCount + 1,
              setCalls := st.setCalls ++ [(buildShaTag now (splitColonLast raw), tag)],
              log := st.log ++ [Event.errRefresh tag] }, true)
      else
        ({ st with
            tagCount := st.tagCount + 1,
            headCalls := st.headCalls ++ [tag],
            references := st.references ++ [(splitColonLast raw, tag)],
            refreshCount := st.refreshCount + 1,
            log := st.log ++ [Event.wouldRefresh tag (buildShaTag now (splitColonLast raw))] },
          true)

/-- Run the tag loop from state `st` over the remaining tag stream.  The
`Bool` is `true` when every tag was processed; on an uncaught exception the
loop stops and returns the state reached so far with `false`. -/
def runPassAux (reg : Registry) (confirm : Bool) (now : Date) :
    PassState → List String → PassState × Bool
  | st, [] => (st, true)
  | st, t :: rest =>
    match processTag reg confirm now st t with
    | (st', b) => if b then runPassAux reg confirm now st' rest else (st', false)

/-- One full pass of the continuous refresh/prune loop of src/main.py over
the listed tag stream. -/
def runPass (reg : Registry) (confirm : Bool) (now : Date) (tags : List String) :
    PassState × Bool :=
  runPassAux reg confirm now initState tags

/-- The startup self-check of src/main.py: build
`build_sha_tag(start_time, '0000')`, match it against `digest_tag_match`,
and compare the integer `year`/`month`/`day` groups with `start_time`'s
fields.  The program raises `IOError` when this returns `false`. -/
def sanityCheckPasses (now : Date) : Bool :=
  match digestTagMatch (buildShaTag now "0000") with
  | some (y, m, d, _) => decide (y = now.year ∧ m = now.month ∧ d = now.day)
  | none => false

/-- The whole `__main__` of src/main.py: the sanity self-check runs first
and, when it fails, the run dies (`none`) before the `dxf.DXF` client is
even constructed — so before authentication, listing, resolution, deletion
or creation.  Otherwise the pass runs over the tag stream. -/
def mainRun (reg : Registry) (confirm : Bool) (now : Date) (tags : List String) :
    Option (PassState × Bool) :=
  if sanityCheckPasses now then some (runPass reg confirm now tags) else none

/-- The tags the retention rule of the tag loop fires on: marker tags (in
the sense of the regex) with a valid embedded date whose age relative to the
run date exceeds the 5-day threshold. -/
def isStaleMarker (now : Date) (t : String) : Prop :=
  ∃ y m d dg, digestTagMatch t = some (y, m, d, dg) ∧ validDate y m d = true ∧
    daysDiff now (Date.mk y m d) > 5

/-- Invariant maintained by every iteration of the tag loop: the only tags
ever handed to `del_alias` are regex-matching marker tags with a valid
embedded date more than 5 days older than the run date; deletion attempts
are deduplicated through `prune_target_tags`; and `pruned_tags` records
exactly the attempts that succeeded (failures are logged instead). -/
structure Inv (reg : Registry) (now : Date) (st : PassState) : Prop where
  targets_old : ∀ t ∈ st.pruneTargets, isStaleMarker now t
  del_sub : st.delCalls ⊆ st.pruneTargets
  pruned_sub : st.prunedTags ⊆ st.delCalls
  targets_nodup : st.pruneTargets.Nodup
  del_nodup : st.delCalls.Nodup
  pruned_nodup : st.prunedTags.Nodup
  pruned_ok : ∀ t ∈ st.prunedTags, reg.delOk t = true
  del_logged : ∀ t ∈ st.delCalls, reg.delOk t = false → Event.errDelete t ∈ st.log

/-- Invariant of a dry run (no `--confirm`): no mutating registry call is
ever issued, and every tag marked for pruning is reported with a
`Would have removed` line. -/
structure DryInv (st : PassState) : Prop where
  no_del : st.delCalls = []
  no_set : st.setCalls = []
  no_created : st.created = []
  no_pruned : st.prunedTags = []
  reported : ∀ t ∈ st.pruneTargets, Event.wouldRemove t ∈ st.log

/-- A registry on which every alias resolution fails (and mutations would
succeed); used to exercise the unguarded `head_manifest_and_response` call. -/
def regResolveFail : Registry :=
  { resolve := fun _ => none, delOk := fun _ => true, setOk := fun _ => true }

/-- A registry with a single alias `release-1` resolving to
`sha256:ab`; every mutation succeeds. -/
def regAliasAb : Registry :=
  { resolve := fun t => if t = "release-1" then some "sha256:ab" else none,
    delOk := fun _ => true, setOk := fun _ => true }

/-- A registry with a single alias `release-x` resolving to
`sha256:ab`; every mutation succeeds. -/
def regAliasX : Registry :=
  { resolve := fun t => if t = "release-x" then some "sha256:ab" else none,
    delOk := fun _ => true, setOk := fun _ => true }

/-- A registry on which every `del_alias` call raises, while resolution of
`release-1` and tag creation succeed. -/
def regDelFail : Registry :=
  { resolve := fun t => if t = "release-1" then some "sha256:cd" else none,
    delOk := fun _ => false, setOk := fun _ => true }

/-! ### Arithmetic of the zero-padded date prefix -/

theorem charToNat_digitChar (n : Nat) (h : n < 10) : charToNat (digitChar n) = n := by
  interval_cases n <;> rfl

@[simp] theorem charToNat_digitChar_mod (n : Nat) :
    charToNat (digitChar (n % 10)) = n % 10 :=
  charToNat_digitChar _ (Nat.mod_lt _ (by decide))

@[simp] theorem isDigit_digitChar (n : Nat) : (digitChar n).isDigit = true := by
  unfold digitChar
  split <;> decide

theorem listToNat_pad4 (n : Nat) : listToNat (pad4 n) = n % 10000 := by
  simp [listToNat, pad4]
  omega

theorem listToNat_pad2 (n : Nat) : listToNat (pad2 n) = n % 100 := by
  simp [listToNat, pad2]
  omega

theorem all_isDigit_datePrefix (a b c : Nat) :
    (pad4 a ++ pad2 b ++ pad2 c).all Char.isDigit = true := by
  simp [pad4, pad2]

/-! ### Parsing a built tag back -/

theorem yearChars_eq_pad4 {n : Nat} (h : 1000 ≤ n) : yearChars n = pad4 n := by
  unfold yearChars
  rw [if_neg (by omega), if_neg (by omega), if_neg (by omega)]

theorem digestTagMatch_pad4_form (dt : Date) (X : String) (hne : X.data ≠ [])
    (hhex : X.data.all isHexLowerChar = true) :
    digestTagMatch (String.mk
        (pad4 dt.year ++ pad2 dt.month ++ pad2 dt.day ++ shaMid ++ X.data)) =
      some (dt.year % 10000, dt.month % 100, dt.day % 100, X) := by
  have hc : (((String.mk (pad4 dt.year ++ pad2 dt.month ++ pad2 dt.day ++
        shaMid ++ X.data)).data.take 8).length = 8 ∧
      ((String.mk (pad4 dt.year ++ pad2 dt.month ++ pad2 dt.day ++
        shaMid ++ X.data)).data.take 8).all Char.isDigit = true ∧
      ((String.mk (pad4 dt.year ++ pad2 dt.month ++ pad2 dt.day ++
        shaMid ++ X.data)).data.drop 8).take 8 = shaMid ∧
      ((String.mk (pad4 dt.year ++ pad2 dt.month ++ pad2 dt.day ++
        shaMid ++ X.data)).data.drop 8).drop 8 ≠ [] ∧
      (((String.mk (pad4 dt.year ++ pad2 dt.month ++ pad2 dt.day ++
        shaMid ++ X.data)).data.drop 8).drop 8).all isHexLowerChar = true) := by
    refine ⟨rfl, ?_, rfl, ?_, ?_⟩
    · show (pad4 dt.year ++ pad2 dt.month ++ pad2 dt.day).all Char.isDigit = true
      exact all_isDigit_datePrefix _ _ _
    · show X.data ≠ []
      exact hne
    · show X.data.all isHexLowerChar = true
      exact hhex
  unfold digestTagMatch
  rw [if_pos hc]
  show some (listToNat (pad4 dt.year), listToNat (pad2 dt.month),
    listToNat (pad2 dt.day), String.mk X.data) = _
  rw [listToNat_pad4, listToNat_pad2, listToNat_pad2]

theorem digestTagMatch_build (dt : Date) (X : String) (hy : 1000 ≤ dt.year)
    (hne : X.data ≠ []) (hhex : X.data.all isHexLowerChar = true) :
    digestTagMatch (buildShaTag dt X) =
      some (dt.year % 10000, dt.month % 100, dt.day % 100, X) := by
  unfold buildShaTag
  rw [yearChars_eq_pad4 hy]
  exact digestTagMatch_pad4_form dt X hne hhex

theorem daysInMonth_le (y m : Nat) : daysInMonth y m ≤ 31 := by
  unfold daysInMonth
  split
  · split <;> omega
  · split <;> omega

theorem validDate_bounds {y m d : Nat} (h : validDate y m d = true) :
    1 ≤ y ∧ y ≤ 9999 ∧ 1 ≤ m ∧ m ≤ 12 ∧ 1 ≤ d ∧ d ≤ 31 := by
  unfold validDate at h
  have h31 := daysInMonth_le y m
  simp only [decide_eq_true_eq] at h
  omega

/-- Counterexample to claim C3 as stated: on the program's platform
`strftime("%Y")` does not zero-pad years below 1000 (glibc), so for the
valid calendar date 0999-01-01 and digest `ab` the built tag is
`9990101_sha256_ab`, whose 7-digit date prefix fails the marker regex:
classification returns an Alias, not the Marker the round trip promises. -/
theorem claimC3_counterexample :
    validDate 999 1 1 = true ∧
      buildShaTag (Date.mk 999 1 1) "ab" = "9990101_sha256_ab" ∧
      classify (buildShaTag (Date.mk 999 1 1) "ab") =
        Except.ok (TagClass.aliasTag "9990101_sha256_ab") := by
  refine ⟨by decide, by decide, by decide⟩

/-- Claim C3 as amended: for every valid calendar date `D` whose year has
four digits (1000 ≤ year ≤ 9999) and every digest `X` (a nonempty string
over the regex alphabet `[0-9a-f]`), classifying the tag name built by
`build_sha_tag` from `D` and `X` yields a Marker carrying exactly digest
`X` and date `D`.  For valid dates before year 1000 the `%Y` rendering is
shorter than the regex's four-digit year group and the built tag is
classified as an Alias instead. -/
theorem claimC3 (dt : Date) (X : String)
    (hy1 : 1000 ≤ dt.year)
    (hv : validDate dt.year dt.month dt.day = true)
    (hne : X.data ≠ []) (hhex : X.data.all isHexLowerChar = true) :
    classify (buildShaTag dt X) = Except.ok (TagClass.markerTag X dt) := by
  obtain ⟨h1, h2, h3, h4, h5, h6⟩ := validDate_bounds hv
  have hy : dt.year % 10000 = dt.year := Nat.mod_eq_of_lt (by omega)
  have hm : dt.month % 100 = dt.month := Nat.mod_eq_of_lt (by omega)
  have hd : dt.day % 100 = dt.day := Nat.mod_eq_of_lt (by omega)
  unfold classify
  rw [digestTagMatch_build dt X hy1 hne hhex, hy, hm, hd]
  simp [hv]

/-- Witness for the amended C3 at the date 2023-06-07 and a 64-character
sha256 digest. -/
theorem claimC3_witness :
    classify (buildShaTag (Date.mk 2023 6 7)
        "23f8ac379575c13c8c1eb1d68f8e0334f978174fdbbf97380186e5325461b558") =
      Except.ok (TagClass.markerTag
        "23f8ac379575c13c8c1eb1d68f8e0334f978174fdbbf97380186e5325461b558"
        (Date.mk 2023 6 7)) :=
  claimC3 (Date.mk 2023 6 7)
    "23f8ac379575c13c8c1eb1d68f8e0334f978174fdbbf97380186e5325461b558"
    (by decide) (by decide) (by decide) (by decide)

/-- Counterexample to claim C2 as stated: the string
`20230101_sha256_ab` deviates from the strict marker pattern (its digest
group has length 2, not the 64 characters of a sha256 digest), yet it is
classified as a Marker rather than an Alias; and the string
`20231399_sha256_ab` (calendar-invalid date component) makes classification
raise (`datetime(2023, 13, 99)` raises `ValueError`) instead of returning
Alias, so the classifier is not total on all strings. -/
theorem claimC2_counterexample :
    classify "20230101_sha256_ab" =
        Except.ok (TagClass.markerTag "ab" (Date.mk 2023 1 1)) ∧
      "ab".length = 2 ∧
      classify "20231399_sha256_ab" = Except.error () := by
  refine ⟨by decide, by decide, by decide⟩

/-- Claim C2 as amended: a string that does not match the anchored regex
(four-digit year, two-digit month, two-digit day, `_sha256_`, then a
nonempty lowercase-hex digest of arbitrary length — the digest length is
not checked) is always classified as an Alias, with no error; a string that
does match the regex raises an error exactly when its date component is
calendar-invalid (and is otherwise a Marker). -/
theorem claimC2 (s : String) :
    (digestTagMatch s = none → classify s = Except.ok (TagClass.aliasTag s)) ∧
      (classify s = Except.error () ↔ ∃ y m d dg,
        digestTagMatch s = some (y, m, d, dg) ∧ validDate y m d = false) := by
  constructor
  · intro h
    simp [classify, h]
  · constructor
    · intro h
      cases hm : digestTagMatch s with
      | none => simp [classify, hm] at h
      | some v =>
        obtain ⟨y, m, d, dg⟩ := v
        refine ⟨y, m, d, dg, rfl, ?_⟩
        by_cases hv : validDate y m d = true
        · simp [classify, hm, hv] at h
        · simpa using hv
    · rintro ⟨y, m, d, dg, hm, hv⟩
      simp [classify, hm, hv]

/-- Witness for the amended C2 at two concrete inputs: `release-1` does not
match the regex and is classified as an Alias; `20231399_sha256_ab` matches
with the calendar-invalid date 2023-13-99 and makes classification raise. -/
theorem claimC2_witness :
    classify "release-1" = Except.ok (TagClass.aliasTag "release-1") ∧
      classify "20231399_sha256_ab" = Except.error () :=
  ⟨(claimC2 "release-1").1 (by decide),
    (claimC2 "20231399_sha256_ab").2.2 ⟨2023, 13, 99, "ab", by decide, by decide⟩⟩

/-! ### List helpers for the loop invariants -/

theorem forall_mem_append_single {α : Type} {P : α → Prop} {l : List α} {a : α}
    (h : ∀ x ∈ l, P x) (ha : P a) : ∀ x ∈ l ++ [a], P x := by
  intro x hx
  rcases List.mem_append.mp hx with hx | hx
  · exact h x hx
  · rw [List.mem_singleton] at hx
    subst hx
    exact ha

theorem nodup_append_single {α : Type} {l : List α} {a : α} (h : l.Nodup)
    (ha : a ∉ l) : (l ++ [a]).Nodup := by
  rw [← List.concat_eq_append]
  exact List.Nodup.concat ha h

theorem subset_append_single {α : Type} {l₁ l₂ : List α} {a : α} (h : l₁ ⊆ l₂) :
    l₁ ⊆ l₂ ++ [a] :=
  h.trans (List.subset_append_left _ _)

theorem append_single_subset {α : Type} {l₁ l₂ : List α} {a : α} (h : l₁ ⊆ l₂) :
    l₁ ++ [a] ⊆ l₂ ++ [a] := by
  intro x hx
  rcases List.mem_append.mp hx with hx | hx
  · exact List.mem_append_left _ (h hx)
  · exact List.mem_append_right _ hx

/-! ### The loop invariant is preserved by every iteration -/

theorem processTag_inv {reg : Registry} {confirm : Bool} {now : Date}
    {st : PassState} {t : String} (h : Inv reg now st) :
    Inv reg now (processTag reg confirm now st t).1 := by
  obtain ⟨h1, h2, h3, h4, h5, h6, h7, h8⟩ := h
  unfold processTag
  split
  next y m d dg heq =>
    split
    next hv =>
      split
      next hcond =>
        obtain ⟨hdiff, hnotin⟩ := hcond
        have hP : isStaleMarker now t := ⟨y, m, d, dg, heq, hv, hdiff⟩
        split
        next hconf =>
          split
          next hdel =>
            exact ⟨forall_mem_append_single h1 hP,
              append_single_subset h2,
              append_single_subset h3,
              nodup_append_single h4 hnotin,
              nodup_append_single h5 (fun hc => hnotin (h2 hc)),
              nodup_append_single h6 (fun hc => hnotin (h2 (h3 hc))),
              forall_mem_append_single h7 hdel,
              forall_mem_append_single
                (fun u hu hf => List.mem_append_left _ (h8 u hu hf))
                (fun hf => absurd hdel (by simp [hf]))⟩
          next hdel =>
            exact ⟨forall_mem_append_single h1 hP,
              append_single_subset h2,
              subset_append_single h3,
              nodup_append_single h4 hnotin,
              nodup_append_single h5 (fun hc => hnotin (h2 hc)),
              h6,
              h7,
              forall_mem_append_single
                (fun u hu hf => List.mem_append_left _ (h8 u hu hf))
                (fun _ => List.mem_append_right _ (by simp))⟩
        next hconf =>
          exact ⟨forall_mem_append_single h1 hP,
            subset_append_single h2,
            h3, nodup_append_single h4 hnotin, h5, h6, h7,
            fun u hu hf => List.mem_append_left _ (h8 u hu hf)⟩
      next hcond =>
        exact ⟨h1, h2, h3, h4, h5, h6, h7, h8⟩
    next hv =>
      exact ⟨h1, h2, h3, h4, h5, h6, h7, h8⟩
  next heq =>
    split
    next =>
      exact ⟨h1, h2, h3, h4, h5, h6, h7, h8⟩
    next raw =>
      split
      next hconf =>
        split
        next hset =>
          exact ⟨h1, h2, h3, h4, h5, h6, h7,
            fun u hu hf => List.mem_append_left _ (h8 u hu hf)⟩
        next hset =>
          exact ⟨h1, h2, h3, h4, h5, h6, h7,
            fun u hu hf => List.mem_append_left _ (h8 u hu hf)⟩
      next hconf =>
        exact ⟨h1, h2, h3, h4, h5, h6, h7,
          fun u hu hf => List.mem_append_left _ (h8 u hu hf)⟩

theorem runPassAux_inv {reg : Registry} {confirm : Bool} {now : Date} :
    ∀ (tags : List String) (st : PassState), Inv reg now st →
      Inv reg now (runPassAux reg confirm now st tags).1 := by
  intro tags
  induction tags with
  | nil => intro st h; exact h
  | cons t rest ih =>
    intro st h
    unfold runPassAux
    have hstep := @processTag_inv reg confirm now st t h
    split
    next st' b heq =>
      rw [heq] at hstep
      by_cases hb : b = true
      · subst hb
        simpa using ih st' hstep
      · simp only [Bool.not_eq_true] at hb
        subst hb
        simpa using hstep

theorem initState_inv (reg : Registry) (now : Date) : Inv reg now initState := by
  refine ⟨?_, ?_, ?_, ?_, ?_, ?_, ?_, ?_⟩ <;> simp [initState, List.Subset.refl]

theorem runPass_inv (reg : Registry) (confirm : Bool) (now : Date)
    (tags : List String) : Inv reg now (runPass reg confirm now tags).1 :=
  runPassAux_inv tags initState (initState_inv reg now)

/-! ### Monotonicity of the loop accumulators -/

theorem processTag_mono {reg : Registry} {confirm : Bool} {now : Date}
    {st : PassState} {t : String} :
    st.pruneTargets ⊆ (processTag reg confirm now st t).1.pruneTargets ∧
      st.created ⊆ (processTag reg confirm now st t).1.created ∧
      st.log ⊆ (processTag reg confirm now st t).1.log := by
  unfold processTag
  split <;> (try split) <;> (try split) <;> (try split) <;> (try split) <;>
    refine ⟨?_, ?_, ?_⟩ <;>
    first
      | exact List.Subset.refl _
      | exact List.subset_append_left _ _

theorem runPassAux_mono {reg : Registry} {confirm : Bool} {now : Date} :
    ∀ (tags : List String) (st : PassState),
      st.pruneTargets ⊆ (runPassAux reg confirm now st tags).1.pruneTargets ∧
        st.created ⊆ (runPassAux reg confirm now st tags).1.created ∧
        st.log ⊆ (runPassAux reg confirm now st tags).1.log := by
  intro tags
  induction tags with
  | nil =>
    intro st
    exact ⟨List.Subset.refl _, List.Subset.refl _, List.Subset.refl _⟩
  | cons t rest ih =>
    intro st
    unfold runPassAux
    have hstep := @processTag_mono reg confirm now st t
    split
    next st' b heq =>
      rw [heq] at hstep
      by_cases hb : b = true
      · subst hb
        have hrest := ih st'
        simp only [if_true]
        exact ⟨hstep.1.trans hrest.1, hstep.2.1.trans hrest.2.1,
          hstep.2.2.trans hrest.2.2⟩
      · simp only [Bool.not_eq_true] at hb
        subst hb
        simpa using hstep

/-! ### Every iteration increments the scanned-tags counter -/

theorem processTag_tagCount {reg : Registry} {confirm : Bool} {now : Date}
    {st : PassState} {t : String} :
    (processTag reg confirm now st t).1.tagCount = st.tagCount + 1 := by
  unfold processTag
  split <;> (try split) <;> (try split) <;> (try split) <;> (try split) <;> rfl

theorem runPassAux_tagCount {reg : Registry} {confirm : Bool} {now : Date} :
    ∀ (tags : List String) (st st' : PassState),
      runPassAux reg confirm now st tags = (st', true) →
      st'.tagCount = st.tagCount + tags.length := by
  intro tags
  induction tags with
  | nil =>
    intro st st' h
    unfold runPassAux at h
    cases h
    rfl
  | cons t rest ih =>
    intro st st' h
    unfold runPassAux at h
    have hc := @processTag_tagCount reg confirm now st t
    split at h
    next st1 b heq =>
      rw [heq] at hc
      by_cases hb : b = true
      · subst hb
        rw [if_pos rfl] at h
        have hc2 : st1.tagCount = st.tagCount + 1 := hc
        have := ih st1 st' h
        simp only [List.length_cons]
        omega
      · simp only [Bool.not_eq_true] at hb
        subst hb
        simp at h

/-! ### Effects guaranteed for every tag processed by a completed pass -/

theorem processTag_marker_effects {reg : Registry} {confirm : Bool} {now : Date}
    {st st' : PassState} {t : String} {y m d : Nat} {dg : String}
    (h : processTag reg confirm now st t = (st', true))
    (hm : digestTagMatch t = some (y, m, d, dg)) :
    validDate y m d = true ∧
      (daysDiff now (Date.mk y m d) > 5 → t ∈ st'.pruneTargets) := by
  unfold processTag at h
  split at h
  next y0 m0 d0 dg0 heq =>
    rw [hm] at heq
    obtain ⟨hy, hmm, hd, hdg⟩ : y0 = y ∧ m0 = m ∧ d0 = d ∧ dg0 = dg := by
      simpa using heq.symm
    subst hy hmm hd hdg
    split at h
    next hv =>
      split at h
      next hcond =>
        refine ⟨hv, fun _ => ?_⟩
        split at h
        · split at h <;> (injection h with h1 h2; subst h1; simp)
        · injection h with h1 h2
          subst h1
          simp
      next hcond =>
        refine ⟨hv, fun hdiff => ?_⟩
        injection h with h1 h2
        subst h1
        by_cases hmem : t ∈ st.pruneTargets
        · simpa using hmem
        · exact absurd ⟨hdiff, hmem⟩ hcond
    next hv =>
      injection h with h1 h2
      cases h2
  next heq =>
    rw [hm] at heq
    cases heq

theorem processTag_alias_effects {reg : Registry} {confirm : Bool} {now : Date}
    {st st' : PassState} {t : String}
    (h : processTag reg confirm now st t = (st', true))
    (hm : digestTagMatch t = none) :
    ∃ raw, reg.resolve t = some raw ∧
      (confirm = true → reg.setOk t = true →
        (buildShaTag now (splitColonLast raw), t) ∈ st'.created) ∧
      (confirm = false →
        Event.wouldRefresh t (buildShaTag now (splitColonLast raw)) ∈ st'.log) := by
  unfold processTag at h
  split at h
  next y0 m0 d0 dg0 heq =>
    rw [hm] at heq
    cases heq
  next heq =>
    split at h
    next hres =>
      injection h with h1 h2
      cases h2
    next raw hres =>
      refine ⟨raw, hres, ?_, ?_⟩
      · intro hconf hset
        subst hconf
        rw [if_pos rfl] at h
        rw [hset] at h
        rw [if_pos rfl] at h
        injection h with h1 h2
        subst h1
        simp
      · intro hconf
        subst hconf
        simp only [Bool.false_eq_true, if_false] at h
        injection h with h1 h2
        subst h1
        simp

theorem runPassAux_complete_effects {reg : Registry} {confirm : Bool} {now : Date} :
    ∀ (tags : List String) (st st' : PassState),
      runPassAux reg confirm now st tags = (st', true) →
      ∀ u ∈ tags,
        (∀ y m d dg, digestTagMatch u = some (y, m, d, dg) →
          validDate y m d = true ∧
            (daysDiff now (Date.mk y m d) > 5 → u ∈ st'.pruneTargets)) ∧
          (digestTagMatch u = none → ∃ raw, reg.resolve u = some raw ∧
            (confirm = true → reg.setOk u = true →
              (buildShaTag now (splitColonLast raw), u) ∈ st'.created) ∧
            (confirm = false →
              Event.wouldRefresh u (buildShaTag now (splitColonLast raw)) ∈ st'.log)) := by
  intro tags
  induction tags with
  | nil =>
    intro st st' h u hu
    cases hu
  | cons t rest ih =>
    intro st st' h u hu
    unfold runPassAux at h
    split at h
    next st1 b heq =>
      by_cases hb : b = true
      · subst hb
        rw [if_pos rfl] at h
        rcases List.mem_cons.mp hu with hu | hu
        · subst hu
          have hmono := @runPassAux_mono reg confirm now rest st1
          rw [h] at hmono
          constructor
          · intro y m d dg hm
            have he := processTag_marker_effects heq hm
            exact ⟨he.1, fun hdiff => hmono.1 (he.2 hdiff)⟩
          · intro hm
            obtain ⟨raw, hres, hcr, hwr⟩ := processTag_alias_effects heq hm
            exact ⟨raw, hres, fun hc hs => hmono.2.1 (hcr hc hs),
              fun hc => hmono.2.2 (hwr hc)⟩
        · exact ih st1 st' h u hu
      · simp only [Bool.not_eq_true] at hb
        subst hb
        simp at h

/-! ### Dry-run invariant -/

theorem processTag_dry {reg : Registry} {now : Date} {st : PassState} {t : String}
    (h : DryInv st) : DryInv (processTag reg false now st t).1 := by
  obtain ⟨d1, d2, d3, d4, d5⟩ := h
  unfold processTag
  split
  next y m d dg heq =>
    split
    next hv =>
      split
      next hcond =>
        exact ⟨d1, d2, d3, d4,
          forall_mem_append_single (fun u hu => List.mem_append_left _ (d5 u hu))
            (List.mem_append_right _ (by simp))⟩
      next hcond =>
        exact ⟨d1, d2, d3, d4, d5⟩
    next hv =>
      exact ⟨d1, d2, d3, d4, d5⟩
  next heq =>
    split
    next =>
      exact ⟨d1, d2, d3, d4, d5⟩
    next raw hres =>
      exact ⟨d1, d2, d3, d4, fun u hu => List.mem_append_left _ (d5 u hu)⟩

theorem runPassAux_dry {reg : Registry} {now : Date} :
    ∀ (tags : List String) (st : PassState), DryInv st →
      DryInv (runPassAux reg false now st tags).1 := by
  intro tags
  induction tags with
  | nil =>
    intro st h
    exact h
  | cons t rest ih =>
    intro st h
    unfold runPassAux
    have hstep := @processTag_dry reg now st t h
    split
    next st' b heq =>
      rw [heq] at hstep
      by_cases hb : b = true
      · subst hb
        simpa using ih st' hstep
      · simp only [Bool.not_eq_true] at hb
        subst hb
        simpa using hstep

theorem initState_dry : DryInv initState := by
  refine ⟨rfl, rfl, rfl, rfl, ?_⟩
  intro t ht
  cases ht

/-! ### Inverting the parse of a built tag -/

theorem digestTagMatch_build_inv {dt : Date} {D : String} {y m d : Nat}
    {dg : String} (hy1 : 1000 ≤ dt.year)
    (h : digestTagMatch (buildShaTag dt D) = some (y, m, d, dg)) :
    y = dt.year % 10000 ∧ m = dt.month % 100 ∧ d = dt.day % 100 := by
  unfold buildShaTag at h
  rw [yearChars_eq_pad4 hy1] at h
  unfold digestTagMatch at h
  split at h
  next hc =>
    have h4 : listToNat (pad4 dt.year) = y ∧ listToNat (pad2 dt.month) = m ∧
        listToNat (pad2 dt.day) = d := by
      have := h
      injection this with hv
      refine ⟨?_, ?_, ?_⟩ <;> simp only [Prod.mk.injEq] at hv <;> tauto
    rw [listToNat_pad4] at h4
    rw [listToNat_pad2] at h4
    rw [listToNat_pad2] at h4
    exact ⟨h4.1.symm, h4.2.1.symm, h4.2.2.symm⟩
  next hc =>
    cases h

theorem digestTagMatch_build_small (dt : Date) (X : String)
    (hy : dt.year < 1000) : digestTagMatch (buildShaTag dt X) = none := by
  have hund : ('_' : Char).isDigit = false := by decide
  unfold buildShaTag yearChars
  by_cases h1 : dt.year < 10
  · rw [if_pos h1]
    unfold digestTagMatch
    refine if_neg ?_
    rintro ⟨-, hdig, -, -, -⟩
    have hdig2 : ((digitChar dt.year).isDigit &&
        ((digitChar (dt.month / 10 % 10)).isDigit &&
        ((digitChar (dt.month % 10)).isDigit &&
        ((digitChar (dt.day / 10 % 10)).isDigit &&
        ((digitChar (dt.day % 10)).isDigit &&
        (('_' : Char).isDigit &&
        (('s' : Char).isDigit &&
        (('h' : Char).isDigit && true)))))))) = true := hdig
    simp [isDigit_digitChar, hund] at hdig2
  · rw [if_neg h1]
    by_cases h2 : dt.year < 100
    · rw [if_pos h2]
      unfold digestTagMatch
      refine if_neg ?_
      rintro ⟨-, hdig, -, -, -⟩
      have hdig2 : ((digitChar (dt.year / 10 % 10)).isDigit &&
          ((digitChar (dt.year % 10)).isDigit &&
          ((digitChar (dt.month / 10 % 10)).isDigit &&
          ((digitChar (dt.month % 10)).isDigit &&
          ((digitChar (dt.day / 10 % 10)).isDigit &&
          ((digitChar (dt.day % 10)).isDigit &&
          (('_' : Char).isDigit &&
          (('s' : Char).isDigit && true)))))))) = true := hdig
      simp [isDigit_digitChar, hund] at hdig2
    · rw [if_neg h2, if_pos hy]
      unfold digestTagMatch
      refine if_neg ?_
      rintro ⟨-, hdig, -, -, -⟩
      have hdig2 : ((digitChar (dt.year / 100 % 10)).isDigit &&
          ((digitChar (dt.year / 10 % 10)).isDigit &&
          ((digitChar (dt.year % 10)).isDigit &&
          ((digitChar (dt.month / 10 % 10)).isDigit &&
          ((digitChar (dt.month % 10)).isDigit &&
          ((digitChar (dt.day / 10 % 10)).isDigit &&
          ((digitChar (dt.day % 10)).isDigit &&
          (('_' : Char).isDigit && true)))))))) = true := hdig
      simp [isDigit_digitChar, hund] at hdig2

theorem pair_eta_of_snd {α β : Type} {p : α × β} {b : β} (h : p.2 = b) :
    p = (p.1, b) := by
  obtain ⟨x, y⟩ := p
  cases h
  rfl

/-! ### Whether a pass completes depends only on parsing and resolution -/

theorem processTag_snd {reg : Registry} {confirm : Bool} {now : Date}
    {st : PassState} {t : String} :
    (processTag reg confirm now st t).2 =
      (match digestTagMatch t with
        | some (y, m, d, _) => validDate y m d
        | none => (reg.resolve t).isSome) := by
  unfold processTag
  split
  next y m d dg heq =>
    split
    next hv =>
      split
      next hcond =>
        split
        · split <;> exact hv.symm
        · exact hv.symm
      next hcond =>
        exact hv.symm
    next hv =>
      simp only [Bool.not_eq_true] at hv
      exact hv.symm
  next heq =>
    split
    next hres =>
      rw [hres]
      rfl
    next raw hres =>
      rw [hres]
      split
      · split <;> rfl
      · rfl

theorem runPassAux_snd_eq {reg reg' : Registry}
    (hres : reg.resolve = reg'.resolve) {confirm confirm' : Bool} {now : Date} :
    ∀ (tags : List String) (st st' : PassState),
      (runPassAux reg confirm now st tags).2 =
        (runPassAux reg' confirm' now st' tags).2 := by
  intro tags
  induction tags with
  | nil =>
    intro st st'
    rfl
  | cons t rest ih =>
    intro st st'
    rcases hp : processTag reg confirm now st t with ⟨st1, b⟩
    rcases hp' : processTag reg' confirm' now st' t with ⟨st1', b'⟩
    have hb : b' = b := by
      have h1 := @processTag_snd reg confirm now st t
      have h2 := @processTag_snd reg' confirm' now st' t
      rw [hp] at h1
      rw [hp'] at h2
      rw [show ((st1', b') : PassState × Bool).2 = b' from rfl] at h2
      rw [show ((st1, b) : PassState × Bool).2 = b from rfl] at h1
      rw [h1, h2, hres]
    subst hb
    unfold runPassAux
    simp only [hp, hp']
    cases b' with
    | true => exact ih st1 st1'
    | false => rfl

/-! ### The claims -/

/-- Counterexample to claim C1 as stated: in the pass over
`[release-1, 20230101_sha256_ab]` run on 2023-06-10 with `--confirm`, the
digest `ab` is referenced by the alias tag `release-1` (the pair is in the
Reference Index), yet the marker tag `20230101_sha256_ab` — a tag of that
very digest — is deleted in that same pass. -/
theorem claimC1_counterexample :
    digestTagMatch "20230101_sha256_ab" = some (2023, 1, 1, "ab") ∧
      ("ab", "release-1") ∈ (runPass regAliasAb true (Date.mk 2023 6 10)
        ["release-1", "20230101_sha256_ab"]).1.references ∧
      "20230101_sha256_ab" ∈ (runPass regAliasAb true (Date.mk 2023 6 10)
        ["release-1", "20230101_sha256_ab"]).1.prunedTags ∧
      (runPass regAliasAb true (Date.mk 2023 6 10)
        ["release-1", "20230101_sha256_ab"]).2 = true := by
  refine ⟨by decide, by decide, by decide, by decide⟩

/-- Claim C1 as amended: during a pass, every tag on which a deletion is
attempted (`del_alias` call) is a regex-matching marker tag with a valid
embedded date more than 5 days older than the run date — in particular no
alias tag is ever deleted.  A digest referenced by an alias tag, however,
is not thereby protected: its own over-threshold marker tags are still
deleted in the same pass (the alias reference itself and the freshly
created marker keep the digest alive). -/
theorem claimC1 (reg : Registry) (confirm : Bool) (now : Date)
    (tags : List String) (t : String)
    (ht : t ∈ (runPass reg confirm now tags).1.delCalls) :
    isStaleMarker now t := by
  obtain ⟨h1, h2, _, _, _, _, _, _⟩ := runPass_inv reg confirm now tags
  exact h1 t (h2 ht)

/-- Witness for the amended C1: the deletion performed by the pass of
`claimC1_counterexample`'s scenario does hit a stale marker tag. -/
theorem claimC1_witness :
    isStaleMarker (Date.mk 2023 6 10) "20230101_sha256_ab" :=
  claimC1 regAliasAb true (Date.mk 2023 6 10)
    ["release-1", "20230101_sha256_ab"] "20230101_sha256_ab" (by decide)

/-- Claim C4: in a completed continuous pass (threshold 5 days), a marker
tag in the stream whose embedded date is 6 days before the run date is
selected for deletion (it is in `prune_target_tags`), and one whose
embedded date is 4 days before the run date is not. -/
theorem claimC4 (reg : Registry) (confirm : Bool) (now : Date)
    (tags : List String) (h : (runPass reg confirm now tags).2 = true)
    (t : String) (ht : t ∈ tags) (y m d : Nat) (dg : String)
    (hm : digestTagMatch t = some (y, m, d, dg)) :
    (daysDiff now (Date.mk y m d) = 6 →
        t ∈ (runPass reg confirm now tags).1.pruneTargets) ∧
      (daysDiff now (Date.mk y m d) = 4 →
        t ∉ (runPass reg confirm now tags).1.pruneTargets) := by
  have hrun : runPassAux reg confirm now initState tags =
      ((runPass reg confirm now tags).1, true) := pair_eta_of_snd h
  have heff := (runPassAux_complete_effects tags initState _ hrun t ht).1 y m d dg hm
  constructor
  · intro h6
    exact heff.2 (by omega)
  · intro h4 hmem
    obtain ⟨h1, _, _, _, _, _, _, _⟩ := runPass_inv reg confirm now tags
    obtain ⟨y', m', d', dg', hm', hv', hdiff'⟩ := h1 t hmem
    rw [hm] at hm'
    obtain ⟨hy, hmm, hd, hdg⟩ : y = y' ∧ m = m' ∧ d = d' ∧ dg = dg' := by
      simpa using hm'
    subst hy
    subst hmm
    subst hd
    omega

/-- Witness for C4 on the run date 2023-06-10: the marker dated 2023-06-04
(6 days before) is selected, the one dated 2023-06-06 (4 days before) is
not. -/
theorem claimC4_witness :
    "20230604_sha256_ab" ∈ (runPass regResolveFail false (Date.mk 2023 6 10)
        ["20230604_sha256_ab", "20230606_sha256_ab"]).1.pruneTargets ∧
      "20230606_sha256_ab" ∉ (runPass regResolveFail false (Date.mk 2023 6 10)
        ["20230604_sha256_ab", "20230606_sha256_ab"]).1.pruneTargets :=
  ⟨(claimC4 regResolveFail false (Date.mk 2023 6 10)
      ["20230604_sha256_ab", "20230606_sha256_ab"] (by decide)
      "20230604_sha256_ab" (by decide) 2023 6 4 "ab" (by decide)).1 (by decide),
    (claimC4 regResolveFail false (Date.mk 2023 6 10)
      ["20230604_sha256_ab", "20230606_sha256_ab"] (by decide)
      "20230606_sha256_ab" (by decide) 2023 6 6 "ab" (by decide)).2 (by decide)⟩

/-- Claim C5: in a completed continuous confirm-mode pass run on a valid
date, every alias tag in the stream that resolves to a digest gets a fresh
marker tag — built from the run date and that digest — created (when the
creation call succeeds), and that newly created marker tag is never among
the tags the same pass hands to `del_alias` (its age is 0, below the
threshold, for the whole pass). -/
theorem claimC5 (reg : Registry) (now : Date) (tags : List String)
    (hnow : validDate now.year now.month now.day = true)
    (h : (runPass reg true now tags).2 = true)
    (a : String) (ha : a ∈ tags) (hal : digestTagMatch a = none)
    (raw : String) (hres : reg.resolve a = some raw)
    (hset : reg.setOk a = true) :
    (buildShaTag now (splitColonLast raw), a) ∈
        (runPass reg true now tags).1.created ∧
      buildShaTag now (splitColonLast raw) ∉
        (runPass reg true now tags).1.delCalls := by
  have hrun : runPassAux reg true now initState tags =
      ((runPass reg true now tags).1, true) := pair_eta_of_snd h
  obtain ⟨raw', hres', hcr, _⟩ :=
    (runPassAux_complete_effects tags initState _ hrun a ha).2 hal
  rw [hres] at hres'
  obtain rfl : raw = raw' := by simpa using hres'
  refine ⟨hcr rfl hset, ?_⟩
  intro hmem
  obtain ⟨h1, h2, _, _, _, _, _, _⟩ := runPass_inv reg true now tags
  obtain ⟨y, m, d, dg, hm, hv, hdiff⟩ := h1 _ (h2 hmem)
  by_cases hy1 : 1000 ≤ now.year
  case neg =>
    rw [digestTagMatch_build_small now (splitColonLast raw) (by omega)] at hm
    cases hm
  obtain ⟨hy, hmm, hd⟩ := digestTagMatch_build_inv hy1 hm
  obtain ⟨b1, b2, b3, b4, b5, b6⟩ := validDate_bounds hnow
  rw [Nat.mod_eq_of_lt (show now.year < 10000 by omega)] at hy
  rw [Nat.mod_eq_of_lt (show now.month < 100 by omega)] at hmm
  rw [Nat.mod_eq_of_lt (show now.day < 100 by omega)] at hd
  subst hy
  subst hmm
  subst hd
  have hdeq : Date.mk now.year now.month now.day = now := rfl
  rw [hdeq] at hdiff
  unfold daysDiff at hdiff
  omega

/-- Witness for C5: one pass over the single alias `release-x` (resolving
to digest `ab`) on 2023-06-10 creates the marker `20230610_sha256_ab` and
never tries to delete it. -/
theorem claimC5_witness :
    (buildShaTag (Date.mk 2023 6 10) (splitColonLast "sha256:ab"), "release-x") ∈
        (runPass regAliasX true (Date.mk 2023 6 10) ["release-x"]).1.created ∧
      buildShaTag (Date.mk 2023 6 10) (splitColonLast "sha256:ab") ∉
        (runPass regAliasX true (Date.mk 2023 6 10) ["release-x"]).1.delCalls :=
  claimC5 regAliasX (Date.mk 2023 6 10) ["release-x"] (by decide) (by decide)
    "release-x" (by decide) (by decide) "sha256:ab" (by decide) (by decide)

/-- Claim C6: a completed pass without `--confirm` (the default, dry run)
issues no mutating registry call at all — no `del_alias`, no
`set_alias` — so no tag is deleted or created; every tag marked for
pruning is reported with a `Would have removed` line and every alias
refresh it would have performed is reported with a `Would have refreshed`
line. -/
theorem claimC6 (reg : Registry) (now : Date) (tags : List String)
    (h : (runPass reg false now tags).2 = true) :
    (runPass reg false now tags).1.delCalls = [] ∧
      (runPass reg false now tags).1.setCalls = [] ∧
      (runPass reg false now tags).1.created = [] ∧
      (runPass reg false now tags).1.prunedTags = [] ∧
      (∀ t ∈ (runPass reg false now tags).1.pruneTargets,
        Event.wouldRemove t ∈ (runPass reg false now tags).1.log) ∧
      (∀ a ∈ tags, digestTagMatch a = none → ∃ raw, reg.resolve a = some raw ∧
        Event.wouldRefresh a (buildShaTag now (splitColonLast raw)) ∈
          (runPass reg false now tags).1.log) := by
  obtain ⟨d1, d2, d3, d4, d5⟩ := runPassAux_dry tags initState initState_dry
  have hrun : runPassAux reg false now initState tags =
      ((runPass reg false now tags).1, true) := pair_eta_of_snd h
  refine ⟨d1, d2, d3, d4, d5, ?_⟩
  intro a ha hal
  obtain ⟨raw, hres, _, hwr⟩ :=
    (runPassAux_complete_effects tags initState _ hrun a ha).2 hal
  exact ⟨raw, hres, hwr rfl⟩

/-- Witness for C6: the dry run over an alias and a stale marker mutates
nothing and reports both intended actions. -/
theorem claimC6_witness :
    (runPass regAliasAb false (Date.mk 2023 6 10)
        ["release-1", "20230101_sha256_ab"]).1.delCalls = [] ∧
      (runPass regAliasAb false (Date.mk 2023 6 10)
        ["release-1", "20230101_sha256_ab"]).1.setCalls = [] ∧
      (runPass regAliasAb false (Date.mk 2023 6 10)
        ["release-1", "20230101_sha256_ab"]).1.created = [] ∧
      (runPass regAliasAb false (Date.mk 2023 6 10)
        ["release-1", "20230101_sha256_ab"]).1.prunedTags = [] ∧
      (∀ t ∈ (runPass regAliasAb false (Date.mk 2023 6 10)
          ["release-1", "20230101_sha256_ab"]).1.pruneTargets,
        Event.wouldRemove t ∈ (runPass regAliasAb false (Date.mk 2023 6 10)
          ["release-1", "20230101_sha256_ab"]).1.log) ∧
      (∀ a ∈ ["release-1", "20230101_sha256_ab"], digestTagMatch a = none →
        ∃ raw, regAliasAb.resolve a = some raw ∧
          Event.wouldRefresh a (buildShaTag (Date.mk 2023 6 10)
            (splitColonLast raw)) ∈ (runPass regAliasAb false (Date.mk 2023 6 10)
            ["release-1", "20230101_sha256_ab"]).1.log) :=
  claimC6 regAliasAb (Date.mk 2023 6 10) ["release-1", "20230101_sha256_ab"]
    (by decide)

/-- Claim C7: in a completed continuous confirm-mode pass, a tag whose
`del_alias` call fails is not counted as actually pruned (`pruned_tags`),
the failure is logged, and the pass still processes every tag of the
stream (the scanned count equals the stream length) — the exception is
caught rather than aborting the pass. -/
theorem claimC7 (reg : Registry) (now : Date) (tags : List String) (t : String)
    (h : (runPass reg true now tags).2 = true) (hf : reg.delOk t = false) :
    t ∉ (runPass reg true now tags).1.prunedTags ∧
      (runPass reg true now tags).1.tagCount = tags.length ∧
      (t ∈ (runPass reg true now tags).1.delCalls →
        Event.errDelete t ∈ (runPass reg true now tags).1.log) ∧
      (∀ delOther : String → Bool,
        (runPass { resolve := reg.resolve, delOk := delOther, setOk := reg.setOk }
            true now tags).2 =
          (runPass reg true now tags).2) := by
  obtain ⟨h1, h2, h3, h4, h5, h6, h7, h8⟩ := runPass_inv reg true now tags
  refine ⟨fun hm => ?_, ?_, fun hm => h8 t hm hf, ?_⟩
  · rw [h7 t hm] at hf
    cases hf
  · have hrun : runPassAux reg true now initState tags =
        ((runPass reg true now tags).1, true) := pair_eta_of_snd h
    have hc := runPassAux_tagCount tags initState _ hrun
    simpa [initState] using hc
  · intro delOther
    exact @runPassAux_snd_eq
      { resolve := reg.resolve, delOk := delOther, setOk := reg.setOk }
      reg rfl true true now tags initState initState

/-- Witness for C7: with a registry on which every deletion raises, the
pass over a stale marker followed by a healthy alias still completes,
processes both tags, logs the deletion error and counts nothing as
actually pruned. -/
theorem claimC7_witness :
    "20230101_sha256_ab" ∉ (runPass regDelFail true (Date.mk 2023 6 10)
        ["20230101_sha256_ab", "release-1"]).1.prunedTags ∧
      (runPass regDelFail true (Date.mk 2023 6 10)
        ["20230101_sha256_ab", "release-1"]).1.tagCount = 2 ∧
      ("20230101_sha256_ab" ∈ (runPass regDelFail true (Date.mk 2023 6 10)
          ["20230101_sha256_ab", "release-1"]).1.delCalls →
        Event.errDelete "20230101_sha256_ab" ∈ (runPass regDelFail true
          (Date.mk 2023 6 10) ["20230101_sha256_ab", "release-1"]).1.log) ∧
      (runPass
          { resolve := regDelFail.resolve,
            delOk := fun _ => true,
            setOk := regDelFail.setOk } true (Date.mk 2023 6 10)
          ["20230101_sha256_ab", "release-1"]).2 =
        (runPass regDelFail true (Date.mk 2023 6 10)
          ["20230101_sha256_ab", "release-1"]).2 := by
  have h := claimC7 regDelFail (Date.mk 2023 6 10)
    ["20230101_sha256_ab", "release-1"] "20230101_sha256_ab"
    (by decide) (by decide)
  exact ⟨h.1, h.2.1, h.2.2.1, h.2.2.2 (fun _ => true)⟩

/-- Counterexample to claim C8 as stated: with a registry on which the
manifest-head lookup for `release-1` raises, the pass over
`[release-1, 20230101_sha256_ab]` aborts — it ends unsuccessfully having
processed only the first tag, so the remaining tag is never processed
(the lookup is outside any try/except in the tag loop). -/
theorem claimC8_counterexample :
    (runPass regResolveFail true (Date.mk 2023 6 10)
        ["release-1", "20230101_sha256_ab"]).2 = false ∧
      (runPass regResolveFail true (Date.mk 2023 6 10)
        ["release-1", "20230101_sha256_ab"]).1.tagCount = 1 := by
  refine ⟨by decide, by decide⟩

/-- Claim C8 as amended: a per-tag resolution failure is *not* caught: the
pass completes successfully only if the manifest-head lookup succeeded for
every alias tag of the stream; equivalently, a single resolution failure
aborts the pass (only per-tag deletion and creation failures are caught
and skipped). -/
theorem claimC8 (reg : Registry) (confirm : Bool) (now : Date)
    (tags : List String) (h : (runPass reg confirm now tags).2 = true)
    (a : String) (ha : a ∈ tags) (hal : digestTagMatch a = none) :
    ∃ raw, reg.resolve a = some raw := by
  have hrun : runPassAux reg confirm now initState tags =
      ((runPass reg confirm now tags).1, true) := pair_eta_of_snd h
  obtain ⟨raw, hres, _, _⟩ :=
    (runPassAux_complete_effects tags initState _ hrun a ha).2 hal
  exact ⟨raw, hres⟩

/-- Witness for the amended C8: a completed pass over the alias
`release-1` implies its resolution succeeded. -/
theorem claimC8_witness :
    ∃ raw, regAliasAb.resolve "release-1" = some raw :=
  claimC8 regAliasAb true (Date.mk 2023 6 10) ["release-1"] (by decide)
    "release-1" (by decide) (by decide)

/-- Claim C9: the round-trip self-check runs at process start; when it
fails, the run dies before the registry client is even constructed, so no
remote call — authentication, listing, resolution, deletion or creation —
is attempted (`mainRun` yields no pass at all). -/
theorem claimC9 (reg : Registry) (confirm : Bool) (now : Date)
    (tags : List String) (h : sanityCheckPasses now = false) :
    mainRun reg confirm now tags = none := by
  simp [mainRun, h]

/-- Witness for C9: a start date in year 999 — valid for Python
`datetime` — renders through glibc `%Y` with only three digits, the built
sanity tag fails the regex, the self-check fails, and the run performs no
pass at all. -/
theorem claimC9_witness :
    sanityCheckPasses (Date.mk 999 1 1) = false ∧
      mainRun regAliasAb true (Date.mk 999 1 1) ["release-1"] = none :=
  ⟨by decide, claimC9 regAliasAb true (Date.mk 999 1 1) ["release-1"] (by decide)⟩

/-- Claim C10: in every run (completed or aborted, confirm or dry), the
tags actually pruned are a subset of the deletion attempts, which are a
subset of the prune targets; deletion is attempted at most once per tag
name; a tag is counted as actually pruned only when its deletion call
succeeded; and consequently the reported `Tags actually pruned` count
never exceeds the reported `Tags pruned` count. -/
theorem claimC10 (reg : Registry) (confirm : Bool) (now : Date)
    (tags : List String) :
    (runPass reg confirm now tags).1.prunedTags ⊆
        (runPass reg confirm now tags).1.delCalls ∧
      (runPass reg confirm now tags).1.delCalls ⊆
        (runPass reg confirm now tags).1.pruneTargets ∧
      (runPass reg confirm now tags).1.delCalls.Nodup ∧
      (runPass reg confirm now tags).1.prunedTags.Nodup ∧
      (∀ t ∈ (runPass reg confirm now tags).1.prunedTags, reg.delOk t = true) ∧
      (runPass reg confirm now tags).1.prunedTags.length ≤
        (runPass reg confirm now tags).1.pruneTargets.length := by
  obtain ⟨h1, h2, h3, h4, h5, h6, h7, h8⟩ := runPass_inv reg confirm now tags
  refine ⟨h3, h2, h5, h6, h7, ?_⟩
  exact (List.Nodup.subperm h6 (h3.trans h2)).length_le

end QciPruner
